import Mathlib

/-!
Verification of the incremental source model and position-aware query engine
of the cyber language server.

The Rust sources are shallowly embedded:
  * document text and ropes are `List Char` (ropey char indices map to list
    indices; byte offsets are recovered with `Char.utf8Size` sums);
  * `Option`-returning Rust functions return `Option`; Rust panics in the
    request handlers are `Except.error`;
  * the while loops (binary search, definition collection) carry an explicit
    fuel argument that strictly bounds the iteration/recursion depth; fuel is
    chosen large enough at every call site that terminates in Rust.
-/

-- ---------------------------------------------------------------------------
-- lsp_types basics (lsp_types::Position, lsp_types::Range)
-- ---------------------------------------------------------------------------

structure Position where
  line : Nat
  character : Nat
deriving Repr, DecidableEq

/-- `lsp_types::Range`; the Rust field `end` is spelled `endPos` here. -/
structure Range where
  start : Position
  endPos : Position
deriving Repr, DecidableEq

/-- `lsp_types::TextDocumentContentChangeEvent`.  `text` is the replacement
text as a character list. -/
structure TextDocumentContentChangeEvent where
  range : Option Range
  range_length : Option Nat
  text : List Char
deriving Repr, DecidableEq

/-- Byte length of a character list under UTF-8 (Rust `str::len`). -/
def utf8Len (l : List Char) : Nat :=
  (l.map Char.utf8Size).sum

-- ---------------------------------------------------------------------------
-- documents/document.rs : compute_line_offsets
-- ---------------------------------------------------------------------------

/-- The scanning loop of `compute_line_offsets`: `i` is the absolute index of
the head character.  A `'\r'` immediately followed by `'\n'` is one
terminator (the source advances `i` past the `'\n'` before pushing). -/
def computeLineOffsetsAux : List Char → Nat → List Nat
  | [], _ => []
  | '\r' :: '\n' :: rest, i => (i + 2) :: computeLineOffsetsAux rest (i + 2)
  | '\r' :: rest, i => (i + 1) :: computeLineOffsetsAux rest (i + 1)
  | '\n' :: rest, i => (i + 1) :: computeLineOffsetsAux rest (i + 1)
  | _ :: rest, i => computeLineOffsetsAux rest (i + 1)

/-- `compute_line_offsets(text, is_at_line_start, text_offset)`. -/
def compute_line_offsets (text : List Char) (is_at_line_start : Bool)
    (text_offset : Nat) : List Nat :=
  (if is_at_line_start then [text_offset] else []) ++
    computeLineOffsetsAux text text_offset

-- ---------------------------------------------------------------------------
-- ropey::Rope, modelled over the rope content.  Ropey's default
-- `unicode_lines` feature recognizes MORE terminators than
-- `compute_line_offsets` does: besides `"\n"`, `"\r\n"` and `"\r"` it also
-- breaks on U+000B, U+000C, U+0085, U+2028 and U+2029, so the rope-side
-- line segmentation is computed by its own scan.
-- ---------------------------------------------------------------------------

/-- The line terminators ropey recognizes and `compute_line_offsets` does
not: U+000B (VT), U+000C (FF), U+0085 (NEL), U+2028 (LS), U+2029 (PS). -/
def isRopeOnlyBreak (c : Char) : Bool :=
  c == '\x0B' || c == '\x0C' || c == '\u0085' || c == '\u2028' ||
    c == '\u2029'

/-- The terminator scan for ropey lines: `"\r\n"` is one break, `"\r"`,
`"\n"` and each rope-only terminator end a line. -/
def ropeLineOffsetsAux : List Char → Nat → List Nat
  | [], _ => []
  | '\r' :: '\n' :: rest, i => (i + 2) :: ropeLineOffsetsAux rest (i + 2)
  | '\r' :: rest, i => (i + 1) :: ropeLineOffsetsAux rest (i + 1)
  | '\n' :: rest, i => (i + 1) :: ropeLineOffsetsAux rest (i + 1)
  | c :: rest, i =>
    if isRopeOnlyBreak c then (i + 1) :: ropeLineOffsetsAux rest (i + 1)
    else ropeLineOffsetsAux rest (i + 1)

/-- Char offsets at which the lines of a rope begin (line 0 begins at 0). -/
def ropeLineOffsets (rope : List Char) : List Nat :=
  0 :: ropeLineOffsetsAux rope 0

/-- `Rope::len_chars`. -/
def ropeLenChars (rope : List Char) : Nat := rope.length

/-- `Rope::len_lines`: one line per start offset (the final line counts even
when empty). -/
def ropeLenLines (rope : List Char) : Nat := (ropeLineOffsets rope).length

/-- `Rope::line_to_char(line)`: char offset of the first character of the
line.  Out-of-bounds line indices panic in ropey; every call below is kept in
bounds, and the default is never observed there. -/
def ropeLineToChar (rope : List Char) (line : Nat) : Nat :=
  (ropeLineOffsets rope).getD line 0

/-- Number of entries of `offs` that are `≤ c`. -/
def countLE (offs : List Nat) (c : Nat) : Nat :=
  (offs.filter (fun a => a ≤ c)).length

/-- `Rope::char_to_line(c)`: index of the line containing char offset `c`
(the greatest line whose start is `≤ c`). -/
def ropeCharToLine (rope : List Char) (c : Nat) : Nat :=
  countLE (ropeLineOffsets rope) c - 1

/-- `Rope::char_to_byte(c)`: byte offset of char offset `c`. -/
def ropeCharToByte (rope : List Char) (c : Nat) : Nat :=
  utf8Len (rope.take c)

/-- `Rope::remove(s..e)` followed by `Rope::insert(s, text)`. -/
def ropeSplice (rope : List Char) (s e : Nat) (text : List Char) : List Char :=
  rope.take s ++ text ++ rope.drop e

-- ---------------------------------------------------------------------------
-- documents/document.rs : FullTextDocument
-- ---------------------------------------------------------------------------

/-- `FullTextDocument`: `text` and `rope` are kept as two separate content
fields exactly as in the source (`update` touches them independently). -/
structure FullTextDocument where
  uri : String
  language_id : String
  version : Int
  text : List Char
  line_offset : Option (List Nat)
  rope : List Char
deriving Repr, DecidableEq

/-- `FullTextDocument::new`: `rope` is built from the same text. -/
def FullTextDocument.new (uri language_id : String) (version : Int)
    (text : List Char) : FullTextDocument :=
  ⟨uri, language_id, version, text, none, text⟩

/-- `FullTextDocument::is_incremental`. -/
def FullTextDocument.is_incremental (event : TextDocumentContentChangeEvent) : Bool :=
  event.range.isSome

/-- `FullTextDocument::is_full`. -/
def FullTextDocument.is_full (event : TextDocumentContentChangeEvent) : Bool :=
  !event.range_length.isSome && !event.range.isSome

/-- `get_wellformed_range`. -/
def get_wellformed_range (range : Range) : Range :=
  if range.start.line > range.endPos.line ∨
      (range.start.line = range.endPos.line ∧
        range.start.character > range.endPos.character) then
    ⟨range.endPos, range.start⟩
  else range

/-- `FullTextDocument::get_line_offsets`: the cached index when present,
else the offsets computed from `text` (the cache write is invisible to the
returned value). -/
def FullTextDocument.get_line_offsets (self : FullTextDocument) : List Nat :=
  self.line_offset.getD (compute_line_offsets self.text true 0)

/-- The binary-search loop of `position_at`.  `fuel` bounds the iteration
count; `high - low` shrinks every round, so `fuel = high - low` at the call
site is always enough and the `0` branch is never the final answer there. -/
def bsearchLoop (offs : List Nat) (offset : Nat) : Nat → Nat → Nat → Nat
  | 0, low, _ => low
  | fuel + 1, low, high =>
    if low < high then
      let mid := low + (high - low) / 2
      if offset < offs.getD mid 0 then bsearchLoop offs offset fuel low mid
      else bsearchLoop offs offset fuel (mid + 1) high
    else low

/-- `FullTextDocument::position_at`.  The clamp bound is `self.text.len()`,
a byte length, exactly as in the source. -/
def FullTextDocument.position_at (self : FullTextDocument) (offset0 : Nat) : Position :=
  let offset := min offset0 (utf8Len self.text)
  let line_offsets := self.get_line_offsets
  let high := line_offsets.length
  if high = 0 then ⟨0, offset⟩
  else
    let low := bsearchLoop line_offsets offset high 0 high
    let line := low - 1
    ⟨line, offset - line_offsets.getD line 0⟩

/-- `FullTextDocument::line_count`. -/
def FullTextDocument.line_count (self : FullTextDocument) : Nat :=
  ropeLenLines self.rope

/-- `FullTextDocument::offset_at`. -/
def FullTextDocument.offset_at (self : FullTextDocument) (position : Position) : Nat :=
  if position.line ≥ self.line_count then ropeLenChars self.rope
  else
    let line_offset := ropeLineToChar self.rope position.line
    let next_line_offset :=
      if position.line + 1 < self.line_count then
        ropeLineToChar self.rope (position.line + 1)
      else ropeLenChars self.rope
    max (min (line_offset + position.character) next_line_offset) line_offset

/-- One iteration of the loop body of `FullTextDocument::update`. -/
def FullTextDocument.update_one (self : FullTextDocument)
    (change : TextDocumentContentChangeEvent) (version : Int) : FullTextDocument :=
  if FullTextDocument.is_incremental change then
    match change.range with
    | some range0 =>
      let range := get_wellformed_range range0
      let start_offset := self.offset_at range.start
      let end_offset := self.offset_at range.endPos
      { self with
        rope := ropeSplice self.rope start_offset end_offset change.text,
        version := version }
    | none => { self with version := version }
  else if FullTextDocument.is_full change then
    { self with text := change.text, line_offset := none, version := version }
  else { self with version := version }

/-- `FullTextDocument::update`. -/
def FullTextDocument.update (self : FullTextDocument)
    (changes : List TextDocumentContentChangeEvent) (version : Int) : FullTextDocument :=
  changes.foldl (fun d change => d.update_one change version) self

/-- `FullTextDocument::get_text`:
`self.rope.slice(0..len_chars).as_str().unwrap_or("")`.
`RopeSlice::as_str` yields the content only when the whole slice lies in
one contiguous leaf chunk — a memory-layout property outside this
embedding, stood for by the `contiguous` flag — and `unwrap_or` turns the
multi-chunk failure into the empty string. -/
def FullTextDocument.get_text (self : FullTextDocument)
    (contiguous : Bool) : List Char :=
  if contiguous then self.rope else []

-- ---------------------------------------------------------------------------
-- utils/treehelper.rs : get_tree_edits
-- ---------------------------------------------------------------------------

/-- `tree_sitter::Point`. -/
structure Point where
  row : Nat
  column : Nat
deriving Repr, DecidableEq

/-- `tree_sitter::InputEdit`. -/
structure InputEdit where
  start_byte : Nat
  old_end_byte : Nat
  new_end_byte : Nat
  start_position : Point
  old_end_position : Point
  new_end_position : Point
deriving Repr, DecidableEq

/-- `get_tree_edits`.  The Rust function mutates `document` through
`update`; the model returns the mutated document next to the optional edit
(`none` leaves the document untouched, as the source returns before the
update call). -/
def get_tree_edits (change : TextDocumentContentChangeEvent)
    (document : FullTextDocument) (version : Int) :
    Option InputEdit × FullTextDocument :=
  if change.range.isNone ∨ change.range_length.isNone then (none, document)
  else
    match change.range with
    | none => (none, document)
    | some range =>
      let start := range.start
      let endp := range.endPos
      let start_char := ropeLineToChar document.rope start.line + start.character
      let old_end_char := ropeLineToChar document.rope endp.line + endp.character
      let start_byte := ropeCharToByte document.rope start_char
      let old_end_byte := ropeCharToByte document.rope old_end_char
      let document' := document.update [change] version
      let new_end_char := start_char + change.text.length
      let new_end_byte := ropeCharToByte document'.rope new_end_char
      let new_end_line := ropeCharToLine document'.rope new_end_char
      let new_end_line_first_character := ropeLineToChar document'.rope new_end_line
      let new_end_character := new_end_byte - new_end_line_first_character
      (some {
        start_byte := start_byte
        old_end_byte := old_end_byte
        new_end_byte := new_end_byte
        start_position := ⟨start.line, start.character⟩
        old_end_position := ⟨endp.line, endp.character⟩
        new_end_position := ⟨new_end_line, new_end_character⟩ }, document')

/-- A position that lies on an existing line of the rope, with a column that
does not run past the start of the next line (so `offset_at` neither clamps
nor falls back, and the ropey index arithmetic of `get_tree_edits` stays in
bounds). -/
def posInBounds (rope : List Char) (p : Position) : Prop :=
  p.line < ropeLenLines rope ∧
  ropeLineToChar rope p.line + p.character ≤
    (if p.line + 1 < ropeLenLines rope then ropeLineToChar rope (p.line + 1)
     else ropeLenChars rope)

-- ---------------------------------------------------------------------------
-- tree_sitter::Node, modelled as a rose tree carrying kind and range
-- ---------------------------------------------------------------------------

/-- A syntax-tree node: grammar-symbol kind, start/end position, ordered
children. -/
inductive Node where
  | node (kind : String) (start_position : Point) (end_position : Point)
      (children : List Node)

def Node.kind : Node → String
  | .node k _ _ _ => k

def Node.start_position : Node → Point
  | .node _ s _ _ => s

def Node.end_position : Node → Point
  | .node _ _ e _ => e

def Node.children : Node → List Node
  | .node _ _ _ cs => cs

/-- `Node::child_count`. -/
def Node.child_count (n : Node) : Nat := n.children.length

/-- `Node::child(i).unwrap()`.  Rust panics when the child is absent; every
input below has the child, so the dummy default is never observed. -/
def Node.child (n : Node) (i : Nat) : Node :=
  n.children.getD i (.node "" ⟨0, 0⟩ ⟨0, 0⟩ [])

/-- `Node::is_error`: tree-sitter tags parse-error nodes with the builtin
`"ERROR"` symbol (the same nodes the `(ERROR)` query matches). -/
def Node.is_error (n : Node) : Bool := n.kind == "ERROR"

/-- `position_to_point` (utils/treehelper.rs). -/
def position_to_point (input : Position) : Point :=
  ⟨input.line, input.character⟩

/-- `point_to_position` (utils/treehelper.rs). -/
def point_to_position (input : Point) : Position :=
  ⟨input.row, input.column⟩

/-- Split a character list at a separator (pieces without the separator;
an empty input yields one empty piece). -/
def splitOnChar (sep : Char) : List Char → List (List Char)
  | [] => [[]]
  | c :: rest =>
    let r := splitOnChar sep rest
    if c = sep then [] :: r
    else
      match r with
      | [] => [[c]]
      | h :: t => (c :: h) :: t

/-- `source.lines().collect::<Vec<&str>>()`: split on `'\n'`, dropping the
final empty segment produced by a trailing terminator and a trailing
`'\r'` on each line. -/
def strLines (s : String) : List (List Char) :=
  let raw := splitOnChar '\n' s.data
  let raw := if raw.getLast? = some [] then raw.dropLast else raw
  raw.map (fun l => if l.getLast? = some '\r' then l.dropLast else l)

/-- `&source_array[h][x..y]`: the column slice of line `h`.  Rust slicing
panics out of bounds; the model clamps, and every input below stays in
bounds (ASCII text, in-range columns). -/
def sliceLine (lines : List (List Char)) (h x y : Nat) : List Char :=
  ((lines.getD h []).drop x).take (y - x)

/-- ASCII lowering of one character (`str::to_lowercase` on the ASCII
names compared below). -/
def lowerChar (c : Char) : Char :=
  if 'A' ≤ c ∧ c ≤ 'Z' then Char.ofNat (c.toNat + 32) else c

/-- ASCII `str::to_lowercase`. -/
def lowerChars (l : List Char) : List Char := l.map lowerChar

-- ---------------------------------------------------------------------------
-- utils/treehelper.rs : get_pos_type
-- ---------------------------------------------------------------------------

/-- `PositionType` (utils/treehelper.rs). -/
inductive PositionType where
  | Variable
  | Comment
  | NotFind
deriving Repr, DecidableEq

/-- The child loop of `get_pos_type`.  In the source, the classification of
a child that has children is bound to the unused variable `_match_type` and
discarded (it feeds only `debug!` logging), so the loop simply moves on for
such children; only the childless same-line branch returns, yielding the
caller-supplied `inputtype`. -/
def get_pos_type_loop (position : Point) (inputtype : PositionType) :
    List Node → PositionType
  | [] => PositionType.NotFind
  | child :: rest =>
    if position.row ≤ child.end_position.row ∧
        child.start_position.row ≤ position.row then
      if child.child_count ≠ 0 then
        get_pos_type_loop position inputtype rest
      else
        if child.start_position.row = child.end_position.row ∧
            position.column ≤ child.end_position.column ∧
            child.start_position.column ≤ position.column then
          inputtype
        else
          get_pos_type_loop position inputtype rest
    else get_pos_type_loop position inputtype rest

/-- `get_pos_type` (utils/treehelper.rs). -/
def get_pos_type (location : Position) (root : Node) (source : String)
    (inputtype : PositionType) : PositionType :=
  get_pos_type_loop (position_to_point location) inputtype root.children

/-- The condition under which the `get_pos_type` loop returns the caller
supplied category: some direct child whose row range contains the cursor is
childless, spans a single line, and contains the cursor column. -/
def hitsSameLineLeaf (position : Point) (children : List Node) : Prop :=
  ∃ child ∈ children,
    (position.row ≤ child.end_position.row ∧
      child.start_position.row ≤ position.row) ∧
    child.child_count = 0 ∧
    (child.start_position.row = child.end_position.row ∧
      position.column ≤ child.end_position.column ∧
      child.start_position.column ≤ position.column)

instance (position : Point) (children : List Node) :
    Decidable (hitsSameLineLeaf position children) :=
  List.decidableBEx _ children

-- ---------------------------------------------------------------------------
-- diagnostics.rs : check_tree_error ; handlers.rs : obtain_full_diagnostics
-- ---------------------------------------------------------------------------

/-- `diagnostics::ErrorEntry`; `severity` is the numeric LSP severity
(`DiagnosticSeverity::ERROR = 1`), `none` meaning no override. -/
structure ErrorEntry where
  start : Point
  endPos : Point
  message : String
  severity : Option Nat
deriving Repr, DecidableEq

/-- `diagnostics::ErrorInfo`. -/
structure ErrorInfo where
  entries : List ErrorEntry
deriving Repr, DecidableEq

/-- `check_tree_error` (diagnostics.rs): emits one `"Grammar Error"`
diagnostic over the range of `input` when `input` itself is an error node;
otherwise the loop body is commented out in the source, `error_info` stays
empty and the function returns `None`. -/
def check_tree_error (source : String) (input : Node) : Option ErrorInfo :=
  if input.is_error then
    some ⟨[⟨input.start_position, input.end_position, "Grammar Error", none⟩]⟩
  else none

/-- `Backend::obtain_full_diagnostics` (handlers.rs), reduced to the list of
entries it publishes: compile-check entries first, then the tree-error
entries; an empty total publishes the explicit empty list. -/
def obtain_full_diagnostics (compile_errors : Option ErrorInfo)
    (source : String) (root : Node) : List ErrorEntry :=
  (compile_errors.map ErrorInfo.entries).getD [] ++
    ((check_tree_error source root).map ErrorInfo.entries).getD []

mutual
/-- Definition following the SPEC words for C6 (not the source): one
diagnostic for each node in the tree tagged as a parse-error node, spanning
that node's range, message `"Grammar Error"`, no severity override,
pre-order. -/
def specGrammarErrorDiagnostics : Node → List ErrorEntry
  | .node k s e cs =>
    (if k = "ERROR" then [⟨s, e, "Grammar Error", none⟩] else []) ++
      specGrammarErrorDiagnosticsList cs

def specGrammarErrorDiagnosticsList : List Node → List ErrorEntry
  | [] => []
  | c :: rest =>
    specGrammarErrorDiagnostics c ++ specGrammarErrorDiagnosticsList rest
end

-- ---------------------------------------------------------------------------
-- completions.rs : getsubcomplete and completions/scanner.rs
-- ---------------------------------------------------------------------------

/-- `lsp_types::CompletionItem`, restricted to the fields the collector
fills, plus two specification-only fields recording provenance: `defRow` is
the start row of the `function_def`/`macro_def` node the item was built
from, and `viaInclude` marks items found through the include-file secondary
scan (`scanner_include_complete`). -/
structure CompletionItem where
  label : String
  detail : String
  defRow : Nat
  viaInclude : Bool
deriving Repr, DecidableEq

/-- The file system and parser as seen by the collector: a path resolves to
the parsed tree and content of the file there (`fs::metadata` and
`fs::read_to_string` succeed exactly when the map yields `some`). -/
abbrev FileEnv := String → Option (Node × String)

/-- Join character-list pieces with a separator character. -/
def joinWithChar (sep : Char) : List (List Char) → List Char
  | [] => []
  | [piece] => piece
  | piece :: rest => piece ++ sep :: joinWithChar sep rest

/-- `Path::parent` of a `/`-separated path. -/
def parentOf (p : String) : String :=
  (joinWithChar '/' ((splitOnChar '/' p.data).dropLast)).asString

/-- `Path::join`. -/
def joinPath (dir name : String) : String := dir ++ "/" ++ name

/-- `Path::file_name` of a `/`-separated path. -/
def fileNameOf (p : String) : String :=
  (((splitOnChar '/' p.data).getLast?).getD []).asString

/-- Provenance marking applied to the items a `scanner_include_complete`
pass returns (specification-only; the Rust scanner hands items back
unchanged). -/
def markViaInclude (item : CompletionItem) : CompletionItem :=
  { item with viaInclude := true }

/-- The completion item pushed for a `function_def`/`macro_def` child:
name = source slice of `child.child(0).child(2)` on the child's start row,
label = name + `"()"`. -/
def defItem (child : Node) (source : String) (local_path : String) :
    CompletionItem :=
  let newsource := strLines source
  let h := child.start_position.row
  let ids := (child.child 0).child 2
  let x := ids.start_position.column
  let y := ids.end_position.column
  let name := sliceLine newsource h x y
  { label := name.asString ++ "()"
    detail := "defined function\nfrom: " ++ fileNameOf local_path
    defRow := child.start_position.row
    viaInclude := false }

/-- The cursor prune of `getsubcomplete`: with a location, a node starting
strictly below the cursor line is skipped. -/
def cursorGate (location : Option Position) (row : Nat) : Bool :=
  match location with
  | some loc => decide (row > loc.line)
  | none => false

mutual
/-- `getsubcomplete` (completions.rs; scanner.rs refers to the same
function as `get_nested_completion`).  The `fuel` argument strictly bounds
the number of recursive steps; the outer layer of the result is `none` when
fuel runs out, so `some r` means the Rust recursion terminates with `r`. -/
def getsubcomplete (env : FileEnv) :
    Nat → Node → String → String → PositionType → Option Position →
    Option (Option (List CompletionItem))
  | 0, _, _, _, _, _ => none
  | fuel + 1, input, source, local_path, postype, location =>
    if cursorGate location input.start_position.row then some none
    else
      match gsChildren env fuel input.children source local_path postype
          location with
      | none => none
      | some complete =>
        some (if complete.isEmpty then none else some complete)
termination_by structural fuel input source local_path postype location =>
  fuel

/-- The `for child in input.children(..)` loop of `getsubcomplete`,
accumulating into `complete`; a child starting below the cursor line breaks
the loop. -/
def gsChildren (env : FileEnv) :
    Nat → List Node → String → String → PositionType → Option Position →
    Option (List CompletionItem)
  | 0, _, _, _, _, _ => none
  | _ + 1, [], _, _, _, _ => some []
  | fuel + 1, child :: rest, source, local_path, postype, location =>
      if cursorGate location child.start_position.row then some []
      else
        match gsChildItems env fuel child source local_path postype
            location with
        | none => none
        | some items =>
          match gsChildren env fuel rest source local_path postype
              location with
          | none => none
          | some tailItems => some (items ++ tailItems)
termination_by structural fuel children source local_path postype location =>
  fuel

/-- The `match child.kind()` body of the loop: what one child contributes. -/
def gsChildItems (env : FileEnv) :
    Nat → Node → String → String → PositionType → Option Position →
    Option (List CompletionItem)
  | 0, _, _, _, _, _ => none
  | fuel + 1, child, source, local_path, postype, location =>
    if child.kind = "function_def" then
      some [defItem child source local_path]
    else if child.kind = "macro_def" then
      some [defItem child source local_path]
    else if child.kind = "if_condition" ∨ child.kind = "foreach_loop" then
      match getsubcomplete env fuel child source local_path postype
          location with
      | none => none
      | some none => some []
      | some (some msgs) => some msgs
    else if child.kind = "normal_command" then
      let newsource := strLines source
      let h := child.start_position.row
      let ids := child.child 0
      let x := ids.start_position.column
      let y := ids.end_position.column
      let name := lowerChars (sliceLine newsource h x y)
      if name = "include".data ∧ child.child_count ≥ 3 then
        let ids2 := child.child 2
        if ids2.start_position.row = ids2.end_position.row then
          let h2 := ids2.start_position.row
          let x2 := ids2.start_position.column
          let y2 := ids2.end_position.column
          let name2 := sliceLine newsource h2 x2 y2
          if (splitOnChar '.' name2).length ≠ 1 then
            let subpath := joinPath (parentOf local_path) name2.asString
            if (env subpath).isSome then
              match scanner_include_complete env fuel subpath postype with
              | none => none
              | some none => some []
              | some (some comps) => some comps
            else some []
          else some []
        else some []
      else some []
    else some []
termination_by structural fuel child source local_path postype location =>
  fuel

/-- `scanner_include_complete` (completions/scanner.rs): read and parse the
included file, then collect its definitions with NO cursor bound
(`location = none`). -/
def scanner_include_complete (env : FileEnv) :
    Nat → String → PositionType → Option (Option (List CompletionItem))
  | 0, _, _ => none
  | fuel + 1, path, postype =>
    match env path with
    | some (tree, content) =>
      match getsubcomplete env fuel tree content path postype none with
      | none => none
      | some result => some (result.map (List.map markViaInclude))
    | none => some none
termination_by structural fuel path postype => fuel
end

-- ---------------------------------------------------------------------------
-- datatypes.rs : knowledge-base records ; treehelper.rs : token lookup
-- ---------------------------------------------------------------------------

/-- `datatypes::KeywordDetail` (`keyword_syntax` and `example_code` model
the Rust fields named `syntax` and `example`, both reserved words here). -/
structure KeywordDetail where
  keyword : String
  keyword_syntax : String
  keyword_detail_type : String
  node_type : List String
  description : String
  example_code : String
deriving Repr, DecidableEq

/-- `datatypes::TypeCategory`. -/
structure TypeCategory where
  category : String
  keywords : List String
  keyword_details : List KeywordDetail
deriving Repr, DecidableEq

/-- `datatypes::LanguageDefinition`. -/
structure LanguageDefinition where
  lsp_action : String
  type_categories : List TypeCategory
deriving Repr, DecidableEq

/-- `LanguageDefinition::lookup`: first category whose keyword list holds
the keyword, then the matching detail record inside it. -/
def LanguageDefinition.lookup (self : LanguageDefinition) (keyword : String) :
    Option KeywordDetail :=
  ((self.type_categories.find?
      (fun completion => completion.keywords.contains keyword)).map
    (fun completion => completion.keyword_details.find?
      (fun keyword_detail => keyword_detail.keyword == keyword))).join

/-- ASCII `str::to_lowercase` on a whole string. -/
def strToLower (s : String) : String := (lowerChars s.data).asString

mutual
/-- `get_string_at_pos` (utils/treehelper.rs): depth-first search for a
same-line childless node covering the cursor; its source slice is the
token text. -/
def get_string_at_pos (location : Position) (root : Node) (source : String) :
    Option String :=
  match root with
  | .node _ _ _ cs => get_string_at_pos_children location cs source

/-- The `for child in root.children(..)` loop of `get_string_at_pos`. -/
def get_string_at_pos_children (location : Position) :
    List Node → String → Option String
  | [], _ => none
  | child :: rest, source =>
    let position := position_to_point location
    if position.row ≤ child.end_position.row ∧
        child.start_position.row ≤ position.row then
      if child.child_count ≠ 0 then
        match get_string_at_pos location child source with
        | some s => some s
        | none => get_string_at_pos_children location rest source
      else if child.start_position.row = child.end_position.row ∧
          position.column ≤ child.end_position.column ∧
          child.start_position.column ≤ position.column then
        some ((sliceLine (strLines source) child.start_position.row
          child.start_position.column child.end_position.column).asString)
      else get_string_at_pos_children location rest source
    else get_string_at_pos_children location rest source
end

/-- `get_from_position` (utils/treehelper.rs): the token under the cursor,
looked up in the per-action knowledge base (`storage` stands for the static
`MESSAGE_STORAGE` map; the action is retried lowercased). -/
def get_from_position (location : Position) (root : Node) (source : String)
    (lsp_action : String)
    (storage : String → Option LanguageDefinition) : Option KeywordDetail :=
  match get_string_at_pos location root source with
  | some message =>
    let value :=
      match storage lsp_action with
      | some v => some v
      | none => storage (strToLower lsp_action)
    match value with
    | some v => v.lookup message
    | none => none
  | none => none

-- ---------------------------------------------------------------------------
-- completions.rs : get_completion ; handlers.rs : on_hover / on_completion
-- ---------------------------------------------------------------------------

/-- `get_completion` (completions.rs): parse the document, classify the
cursor, collect prior definitions with the cursor bound; an empty
collection yields `None`.  `parse` stands for the tree-sitter parser and
`fuel` bounds the collector recursion as above. -/
def get_completion (parse : String → Node) (env : FileEnv)
    (storage : String → Option LanguageDefinition) (fuel : Nat)
    (source : String) (location : Position) (local_path : String) :
    Option (Option (List CompletionItem)) :=
  let tree := parse source
  let _type_data :=
    get_from_position location tree source "completion" storage
  let postype := get_pos_type location tree source PositionType.NotFind
  match getsubcomplete env fuel tree source local_path postype
      (some location) with
  | none => none
  | some none => some none
  | some (some msgs) => some (if msgs.isEmpty then none else some msgs)

/-- The hover payload (`lsp_types::Hover` with markdown contents). -/
structure Hover where
  value : String
  range : Range
deriving Repr, DecidableEq

/-- The markdown the hover handler formats from a knowledge-base record
(vscode template and plain template). -/
def hover_markdown (lsp_client : String) (result : KeywordDetail) : String :=
  if lsp_client = "vscode" then
    "\n### " ++ result.keyword ++ " \n<p align='right'>" ++
      result.keyword_detail_type ++ "</p>\n\n---\n#### " ++
      result.description ++ "  \n\n```cyber\n" ++ result.example_code ++
      "\n```  "
  else
    "\n```cyber\n" ++ result.keyword ++ "\n```\n---\n" ++
      result.description ++ "\n\n```cyber\n" ++ result.example_code ++ "\n``` "

/-- Modelled from the spec: the handler-side document type.  The documents
module file that re-exports `FullTextDocument` with `from_params`, `tree`
and `get_content` is not under src/ (only `mod documents;` and the call
sites are); per spec section 4.1 the buffer exposes
`content() -> borrowed text`, so the model keeps the owned content and
`get_content` borrows it. -/
structure HandlerDocument where
  content : String

/-- Modelled from the spec: `get_content` returns the document content. -/
def HandlerDocument.get_content (self : HandlerDocument) : String :=
  self.content

/-- The message of the Rust panic raised by `Option::unwrap` on `None`. -/
def panicMsg : String := "called Option::unwrap() on a None value"

/-- `Backend::on_hover` (handlers.rs).  The docs-map lookup is followed by
`.unwrap()`, so an unknown uri panics (`Except.error`); a found document
flows through the length guards into the token lookup. -/
def on_hover (docs : String → Option HandlerDocument)
    (parse : String → Node)
    (storage : String → Option LanguageDefinition)
    (lsp_client : String) (uri : String) (position : Position) :
    Except String (Option Hover) :=
  match docs uri with
  | none => Except.error panicMsg
  | some doc_tmp =>
    let doc_data := doc_tmp.get_content
    if utf8Len doc_data.data = 0 then Except.ok none
    else if (strLines doc_data).length > 1000 then Except.ok none
    else
      let tree := parse doc_data
      match get_from_position position tree doc_data "hover" storage with
      | some result =>
        Except.ok (some
          ⟨hover_markdown lsp_client result, ⟨position, position⟩⟩)
      | none => Except.ok none

/-- `Backend::on_completion` (handlers.rs).  With a completion context the
docs-map lookup is followed by `.unwrap()`, so an unknown uri panics; the
outer `Option` layer is the collector fuel as above (`none` = the
collector recursion does not terminate). -/
def on_completion (docs : String → Option HandlerDocument)
    (parse : String → Node) (env : FileEnv)
    (storage : String → Option LanguageDefinition) (fuel : Nat)
    (context_present : Bool) (uri : String) (location : Position) :
    Option (Except String (Option (List CompletionItem))) :=
  if context_present then
    match docs uri with
    | none => some (Except.error panicMsg)
    | some doc_tmp =>
      let doc_data := doc_tmp.get_content
      if utf8Len doc_data.data = 0 then some (Except.ok none)
      else
        match get_completion parse env storage fuel doc_data location uri with
        | none => none
        | some r => some (Except.ok r)
  else some (Except.ok none)

-- ---------------------------------------------------------------------------
-- Concrete documents and change events used by witnesses/counterexamples
-- ---------------------------------------------------------------------------

/-- A freshly opened two-line document `"ab\ncd"`. -/
def exDoc2Lines : FullTextDocument :=
  FullTextDocument.new "file:///a.cy" "cyber" 1 [ 'a', 'b', '\n', 'c', 'd' ]

/-- An incremental event replacing the span (0,1)-(0,2) by `"z"`. -/
def exIncEvent : TextDocumentContentChangeEvent :=
  ⟨some ⟨⟨0, 1⟩, ⟨0, 2⟩⟩, some 1, [ 'z' ]⟩

/-- A freshly opened document containing a vertical tab (U+000B): ropey
breaks a line there, `compute_line_offsets` does not. -/
def C1cexDoc : FullTextDocument :=
  FullTextDocument.new "file:///a.cy" "cyber" 1 [ 'a', '\x0B', 'b', 'c' ]

/-- Event with no range but a range length: neither Incremental nor Full. -/
def C3cexEvent : TextDocumentContentChangeEvent :=
  ⟨none, some 3, [ 'x' ]⟩

/-- A freshly opened one-character document `"a"`. -/
def exDoc1Char : FullTextDocument :=
  FullTextDocument.new "file:///a.cy" "cyber" 1 [ 'a' ]

/-- The Full replacement event of the C4 failing input. -/
def C4event : TextDocumentContentChangeEvent :=
  ⟨none, none, [ 'b' ]⟩

/-- A tree whose root has an `import_statement` container child covering the
cursor (with a well-formed first child, as the discarded classification
expects). -/
def C8cexTree : Node :=
  .node "source_file" ⟨0, 0⟩ ⟨1, 0⟩
    [ .node "import_statement" ⟨0, 0⟩ ⟨0, 10⟩
        [ .node "identifier" ⟨0, 0⟩ ⟨0, 6⟩ [] ] ]

/-- A tree whose root is not an error node but has an `ERROR` child. -/
def C6cexTree : Node :=
  .node "source_file" ⟨0, 0⟩ ⟨1, 0⟩ [ .node "ERROR" ⟨0, 2⟩ ⟨0, 5⟩ [] ]

/-- Content of the current file `"dir/a.cy"` for C7: one include command. -/
def C7srcA : String := "include b.cy"

/-- Parse tree of `C7srcA`: a `normal_command` whose first child spans
`include` and whose third child names the included file. -/
def C7treeA : Node :=
  .node "source_file" ⟨0, 0⟩ ⟨1, 0⟩
    [ .node "normal_command" ⟨0, 0⟩ ⟨0, 12⟩
        [ .node "identifier" ⟨0, 0⟩ ⟨0, 7⟩ [],
          .node "sep" ⟨0, 7⟩ ⟨0, 8⟩ [],
          .node "argument" ⟨0, 8⟩ ⟨0, 12⟩ [] ] ]

/-- Content of the included file `"dir/b.cy"`: a function defined on row 5,
far below the cursor used in the counterexample. -/
def C7srcB : String := "\n\n\n\n\nfndef f"

/-- Parse tree of `C7srcB`: a `function_def` starting on row 5 whose
`child(0).child(2)` is the name node `f`. -/
def C7treeB : Node :=
  .node "source_file" ⟨0, 0⟩ ⟨6, 0⟩
    [ .node "function_def" ⟨5, 0⟩ ⟨6, 0⟩
        [ .node "command_head" ⟨5, 0⟩ ⟨5, 7⟩
            [ .node "keyword" ⟨5, 0⟩ ⟨5, 5⟩ [],
              .node "space" ⟨5, 5⟩ ⟨5, 6⟩ [],
              .node "identifier" ⟨5, 6⟩ ⟨5, 7⟩ [] ] ] ]

/-- File system for C7: only `"dir/b.cy"` exists. -/
def C7env : FileEnv := fun p =>
  if p = "dir/b.cy" then some (C7treeB, C7srcB) else none

/-- Content of the self-including file `"dir/a.cy"` for C9. -/
def C9src : String := "include a.cy"

/-- Parse tree of `C9src`: an include naming the file itself. -/
def C9treeA : Node :=
  .node "source_file" ⟨0, 0⟩ ⟨1, 0⟩
    [ .node "normal_command" ⟨0, 0⟩ ⟨0, 12⟩
        [ .node "identifier" ⟨0, 0⟩ ⟨0, 7⟩ [],
          .node "sep" ⟨0, 7⟩ ⟨0, 8⟩ [],
          .node "argument" ⟨0, 8⟩ ⟨0, 12⟩ [] ] ]

/-- File system for C9: `"dir/a.cy"` resolves to itself. -/
def C9env : FileEnv := fun p =>
  if p = "dir/a.cy" then some (C9treeA, C9src) else none

-- ---------------------------------------------------------------------------
-- Theorems
-- ---------------------------------------------------------------------------

/-- Every character occupies at least one UTF-8 byte. -/
theorem length_le_utf8Len (l : List Char) : l.length ≤ utf8Len l := by
  induction l with
  | nil => simp [utf8Len]
  | cons c rest ih =>
    have := Char.utf8Size_pos c
    simp only [utf8Len, List.map_cons, List.sum_cons, List.length_cons] at *
    omega

theorem compute_line_offsets_true (t : List Char) :
    compute_line_offsets t true 0 = 0 :: computeLineOffsetsAux t 0 := by
  simp [compute_line_offsets]

/-- Invariant of the `position_at` binary-search loop: the answer lies in
`[low, high]`, the entry left of the answer is `≤ offset`, and the entry at
the answer (when it exists) is `> offset`. -/
theorem bsearchLoop_spec (offs : List Nat) (offset : Nat) :
    ∀ fuel low high, high - low ≤ fuel → low ≤ high → high ≤ offs.length →
    (0 < low → offs.getD (low - 1) 0 ≤ offset) →
    (high < offs.length → offset < offs.getD high 0) →
    low ≤ bsearchLoop offs offset fuel low high ∧
    bsearchLoop offs offset fuel low high ≤ high ∧
    (0 < bsearchLoop offs offset fuel low high →
      offs.getD (bsearchLoop offs offset fuel low high - 1) 0 ≤ offset) ∧
    (bsearchLoop offs offset fuel low high < offs.length →
      offset < offs.getD (bsearchLoop offs offset fuel low high) 0) := by
  intro fuel
  induction fuel with
  | zero =>
    intro low high hfl hlh hhl hlow hhigh
    have heq : low = high := by omega
    subst heq
    simp only [bsearchLoop]
    exact ⟨le_refl _, le_refl _, hlow, hhigh⟩
  | succ n ih =>
    intro low high hfl hlh hhl hlow hhigh
    by_cases h : low < high
    · simp only [bsearchLoop, if_pos h]
      by_cases hc : offset < offs.getD (low + (high - low) / 2) 0
      · simp only [if_pos hc]
        have hres := ih low (low + (high - low) / 2) (by omega) (by omega)
          (by omega) hlow (fun _ => hc)
        exact ⟨hres.1, le_trans hres.2.1 (by omega), hres.2.2.1, hres.2.2.2⟩
      · simp only [if_neg hc]
        have hres := ih (low + (high - low) / 2 + 1) high (by omega) (by omega)
          hhl (fun _ => by simpa using Nat.le_of_not_lt hc) hhigh
        exact ⟨le_trans (by omega) hres.1, hres.2.1, hres.2.2.1, hres.2.2.2⟩
    · simp only [bsearchLoop, if_neg h]
      have heq : low = high := by omega
      subst heq
      exact ⟨le_refl _, le_refl _, hlow, hhigh⟩

/-- On text containing none of the rope-only terminators, the ropey line
scan agrees with `compute_line_offsets`' scan. -/
theorem ropeLineOffsetsAux_eq_compute (l : List Char) (i : Nat) :
    (∀ c ∈ l, isRopeOnlyBreak c = false) →
    ropeLineOffsetsAux l i = computeLineOffsetsAux l i := by
  induction l, i using ropeLineOffsetsAux.induct with
  | case1 x => intro h; rfl
  | case2 rest i ih =>
    intro h
    rw [ropeLineOffsetsAux, computeLineOffsetsAux,
      ih (fun c hc => h c (by simp [hc]))]
  | case3 rest i hne ih =>
    intro h
    rw [ropeLineOffsetsAux.eq_3 i rest hne, computeLineOffsetsAux.eq_3 i rest
      hne, ih (fun c hc => h c (by simp [hc]))]
  | case4 rest i ih =>
    intro h
    rw [ropeLineOffsetsAux, computeLineOffsetsAux,
      ih (fun c hc => h c (by simp [hc]))]
  | case5 c rest i h1 h2 h3 hb ih =>
    intro h
    exact absurd (h c (List.mem_cons_self c rest)) (by simp [hb])
  | case6 c rest i h1 h2 h3 hb ih =>
    intro h
    rw [ropeLineOffsetsAux.eq_5 i c rest h1 h2 h3,
      computeLineOffsetsAux.eq_5 i c rest h1 h2 h3, if_neg hb]
    exact ih (fun c hc => h c (by simp [hc]))

/-- C1 (amended) — Round-trip: on a document whose rope and text agree (as after
`FullTextDocument::new`) and whose line-offset cache is absent or valid,
and whose content contains none of the terminators only ropey recognizes
(U+000B, U+000C, U+0085, U+2028, U+2029 — `C1_counterexample` shows the
round-trip fails on such content), `offset_at (position_at x) = x` for
every valid character offset `x`: the line found by the binary search over
the line starts, converted back via that line's start offset plus the
column, returns the original offset. -/
theorem C1_offset_at_position_at_roundtrip
    (d : FullTextDocument) (x : Nat)
    (hcontent : d.rope = d.text)
    (hcache : d.line_offset = none ∨
      d.line_offset = some (compute_line_offsets d.text true 0))
    (hclean : ∀ c ∈ d.text, isRopeOnlyBreak c = false)
    (hx : x ≤ d.text.length) :
    d.offset_at (d.position_at x) = x := by
  have hoffs : d.get_line_offsets = compute_line_offsets d.text true 0 := by
    rcases hcache with h | h <;> simp [FullTextDocument.get_line_offsets, h]
  set offs := compute_line_offsets d.text true 0 with hoffsdef
  have hcons : offs = 0 :: computeLineOffsetsAux d.text 0 :=
    compute_line_offsets_true d.text
  have hlen0 : 0 < offs.length := by rw [hcons]; simp
  have hget0 : offs.getD 0 0 = 0 := by rw [hcons]; rfl
  have hxle : x ≤ utf8Len d.text := le_trans hx (length_le_utf8Len _)
  have hmin : min x (utf8Len d.text) = x := min_eq_left hxle
  obtain ⟨h1, h2, h3, h4⟩ := bsearchLoop_spec offs x offs.length 0 offs.length
    (by omega) (by omega) (le_refl _) (by omega) (by omega)
  set r := bsearchLoop offs x offs.length 0 offs.length with hr
  have hr1 : 1 ≤ r := by
    by_contra hcon
    have hr0 : r = 0 := by omega
    have := h4 (by omega)
    rw [hr0, hget0] at this
    omega
  have hpos : d.position_at x = ⟨r - 1, x - offs.getD (r - 1) 0⟩ := by
    simp only [FullTextDocument.position_at, hoffs, hmin, ← hoffsdef, ← hr]
    rw [if_neg (by omega)]
  have hropeoffs : ropeLineOffsets d.rope = offs := by
    rw [hcontent, ropeLineOffsets,
      ropeLineOffsetsAux_eq_compute d.text 0 hclean]
    exact hcons.symm
  have hlc : d.line_count = offs.length := by
    simp [FullTextDocument.line_count, ropeLenLines, hropeoffs]
  have ha : offs.getD (r - 1) 0 ≤ x := h3 (by omega)
  rw [hpos]
  have hropeoffs' : ropeLineOffsets d.text = offs := by
    rw [← hcontent]
    exact hropeoffs
  simp only [FullTextDocument.offset_at, hlc, ropeLenChars, ropeLineToChar,
    hcontent, hropeoffs']
  rw [if_neg (by simp only [not_le]; omega)]
  by_cases hrlen : r < offs.length
  · have hnext : x < offs.getD r 0 := h4 hrlen
    rw [if_pos (by omega : r - 1 + 1 < offs.length)]
    have : r - 1 + 1 = r := by omega
    rw [this]
    omega
  · rw [if_neg (by omega)]
    omega

/-- Witness for C1 at a concrete document and offset. -/
theorem C1_witness :
    let d := FullTextDocument.new "file:///a.cy" "cyber" 1
      [ 'a', 'b', '\n', 'c', 'd' ]
    d.rope = d.text ∧
    (d.line_offset = none ∨
      d.line_offset = some (compute_line_offsets d.text true 0)) ∧
    (∀ c ∈ d.text, isRopeOnlyBreak c = false) ∧
    4 ≤ d.text.length ∧
    d.offset_at (d.position_at 4) = 4 := by
  refine ⟨rfl, Or.inl rfl, by decide, by decide, ?_⟩
  exact C1_offset_at_position_at_roundtrip _ 4 rfl (Or.inl rfl) (by decide)
    (by decide)

/-- C1 — counterexample to the claim as stated: on the coherent, freshly
opened document `"a\u{000B}bc"`, `position_at` (indexed over `text`, which
does not treat U+000B as a terminator) maps offset 3 to (0,3), but
`offset_at` (ropey lines over `rope`, which does) clamps (0,3) to the
second line's start, yielding 2 — so the round-trip fails. -/
theorem C1_counterexample :
    C1cexDoc.rope = C1cexDoc.text ∧
    C1cexDoc.line_offset = none ∧
    (3 : Nat) ≤ C1cexDoc.text.length ∧
    C1cexDoc.position_at 3 = ⟨0, 3⟩ ∧
    C1cexDoc.offset_at (C1cexDoc.position_at 3) = 2 ∧
    (2 : Nat) ≠ 3 := by
  decide

/-- C10 (amended) — An incremental `update` mutates only the rope (splicing
the replacement into the resolved span) and the version; `text` and the
cached line-offset index are untouched, so `position_at` (computed from
`text` and its cache) still answers from the pre-change content, while
`get_text` answers from the post-change rope only when the rope slice is
contiguous — on the multi-chunk `as_str` failure path it returns the empty
string instead (`C10_counterexample`). -/
theorem C10_update_incremental_frame
    (d : FullTextDocument) (c : TextDocumentContentChangeEvent) (r : Range)
    (v : Int) (h : c.range = some r) :
    (d.update [c] v).text = d.text ∧
    (d.update [c] v).line_offset = d.line_offset ∧
    (d.update [c] v).uri = d.uri ∧
    (d.update [c] v).language_id = d.language_id ∧
    (d.update [c] v).version = v ∧
    (d.update [c] v).rope =
      ropeSplice d.rope (d.offset_at (get_wellformed_range r).start)
        (d.offset_at (get_wellformed_range r).endPos) c.text ∧
    (d.update [c] v).get_text true =
      ropeSplice d.rope (d.offset_at (get_wellformed_range r).start)
        (d.offset_at (get_wellformed_range r).endPos) c.text ∧
    (d.update [c] v).get_text false = [] ∧
    (∀ x, (d.update [c] v).position_at x = d.position_at x) := by
  have hinc : FullTextDocument.is_incremental c = true := by
    simp [FullTextDocument.is_incremental, h]
  have hupd : d.update [c] v =
      { d with
        rope := ropeSplice d.rope (d.offset_at (get_wellformed_range r).start)
          (d.offset_at (get_wellformed_range r).endPos) c.text,
        version := v } := by
    simp [FullTextDocument.update, FullTextDocument.update_one, hinc, h]
  rw [hupd]
  refine ⟨rfl, rfl, rfl, rfl, rfl, rfl, rfl, rfl, fun x => ?_⟩
  simp [FullTextDocument.position_at, FullTextDocument.get_line_offsets]

/-- Witness for C10: one character replaced inside line 0 of `"ab\ncd"`. -/
theorem C10_witness :
    (exDoc2Lines.update [exIncEvent] 2).text = exDoc2Lines.text ∧
    (exDoc2Lines.update [exIncEvent] 2).line_offset = exDoc2Lines.line_offset ∧
    (exDoc2Lines.update [exIncEvent] 2).rope = [ 'a', 'z', '\n', 'c', 'd' ] ∧
    (exDoc2Lines.update [exIncEvent] 2).version = 2 := by
  obtain ⟨h1, h2, _, _, h5, h6, _, _, _⟩ :=
    C10_update_incremental_frame exDoc2Lines exIncEvent ⟨⟨0, 1⟩, ⟨0, 2⟩⟩ 2 rfl
  refine ⟨h1, h2, ?_, h5⟩
  rw [h6]
  decide

/-- C10 — counterexample to the claim as stated: when the post-change rope
is not one contiguous chunk, `as_str()` fails and `unwrap_or` makes
`get_text` return the empty string, not the post-change content. -/
theorem C10_counterexample :
    (exDoc2Lines.update [exIncEvent] 2).rope =
      [ 'a', 'z', '\n', 'c', 'd' ] ∧
    (exDoc2Lines.update [exIncEvent] 2).get_text false = [] ∧
    ([] : List Char) ≠ [ 'a', 'z', '\n', 'c', 'd' ] := by
  decide

/-- C3 — counterexample: an event whose range is absent but whose
range-length is present is treated as neither Incremental nor Full; `update`
applies neither branch to it and only bumps the version.  This refutes the
claim that every range-less event is treated as Full. -/
theorem C3_counterexample :
    C3cexEvent.range = none ∧
    FullTextDocument.is_incremental C3cexEvent = false ∧
    FullTextDocument.is_full C3cexEvent = false ∧
    (exDoc1Char.update [C3cexEvent] 2).text = exDoc1Char.text ∧
    (exDoc1Char.update [C3cexEvent] 2).rope = exDoc1Char.rope ∧
    (exDoc1Char.update [C3cexEvent] 2).line_offset = exDoc1Char.line_offset ∧
    (exDoc1Char.update [C3cexEvent] 2).version = 2 := by
  decide

/-- C3 (amended) — events are classified by `is_incremental` ⇔ range
present, and `is_full` ⇔ range AND range-length both absent; an event with
no range but a range-length falls into neither branch, and `update` then
changes nothing but the version. -/
theorem C3_classification_amended (e : TextDocumentContentChangeEvent) :
    FullTextDocument.is_incremental e = e.range.isSome ∧
    FullTextDocument.is_full e = (e.range.isNone && e.range_length.isNone) ∧
    (∀ (d : FullTextDocument) (v : Int), e.range = none →
      e.range_length.isSome = true →
      d.update [e] v = { d with version := v }) := by
  obtain ⟨r, rl, t⟩ := e
  refine ⟨rfl, ?_, ?_⟩
  · cases r <;> cases rl <;> rfl
  · intro d v h1 h2
    have h1' : r = none := h1
    subst h1'
    cases rl with
    | none => exact absurd h2 (by simp)
    | some n => rfl

/-- Witness for the amended C3 at the concrete neither-branch event. -/
theorem C3_amended_witness :
    FullTextDocument.is_incremental C3cexEvent = C3cexEvent.range.isSome ∧
    FullTextDocument.is_full C3cexEvent =
      (C3cexEvent.range.isNone && C3cexEvent.range_length.isNone) ∧
    exDoc1Char.update [C3cexEvent] 2 = { exDoc1Char with version := 2 } := by
  refine ⟨(C3_classification_amended C3cexEvent).1,
    (C3_classification_amended C3cexEvent).2.1,
    (C3_classification_amended C3cexEvent).2.2 exDoc1Char 2 rfl rfl⟩

/-- C4 — the code contradicts the claim: a Full change event rewrites the
`text` field and clears the cached line-offset index, but never touches the
rope, and `get_text` reads the rope — so after a full replacement of
`"a"` by `"b"`, `get_text` returns the pre-change `"a"` (the one-char rope
is a single contiguous chunk, so `as_str` succeeds), never the replacement
text on either `as_str` outcome. -/
theorem C4_full_update_get_text_stale :
    FullTextDocument.is_full C4event = true ∧
    (exDoc1Char.update [C4event] 2).line_offset = none ∧
    (exDoc1Char.update [C4event] 2).text = [ 'b' ] ∧
    (exDoc1Char.update [C4event] 2).get_text true = [ 'a' ] ∧
    (exDoc1Char.update [C4event] 2).get_text true ≠ C4event.text ∧
    (exDoc1Char.update [C4event] 2).get_text false ≠ C4event.text := by
  decide

/-- Every offset produced by the terminator scan is at most the end of the
scanned text. -/
theorem computeLineOffsetsAux_mem_le (l : List Char) (i : Nat) :
    ∀ a ∈ computeLineOffsetsAux l i, a ≤ i + l.length := by
  induction l, i using computeLineOffsetsAux.induct with
  | case1 x => simp [computeLineOffsetsAux]
  | case2 rest i ih =>
    intro a ha
    simp only [computeLineOffsetsAux, List.mem_cons] at ha
    simp only [List.length_cons]
    rcases ha with rfl | ha
    · omega
    · have := ih a ha
      omega
  | case3 rest i hne ih =>
    intro a ha
    rw [computeLineOffsetsAux.eq_3 i rest hne] at ha
    rw [List.mem_cons] at ha
    simp only [List.length_cons]
    rcases ha with rfl | ha
    · omega
    · have := ih a ha
      omega
  | case4 rest i ih =>
    intro a ha
    simp only [computeLineOffsetsAux, List.mem_cons] at ha
    simp only [List.length_cons]
    rcases ha with rfl | ha
    · omega
    · have := ih a ha
      omega
  | case5 head rest i h1 h2 h3 ih =>
    intro a ha
    rw [computeLineOffsetsAux.eq_5 i head rest h1 h2 h3] at ha
    have := ih a ha
    simp only [List.length_cons]
    omega

/-- Every offset produced by the ropey terminator scan is at most the end
of the scanned text. -/
theorem ropeLineOffsetsAux_mem_le (l : List Char) (i : Nat) :
    ∀ a ∈ ropeLineOffsetsAux l i, a ≤ i + l.length := by
  induction l, i using ropeLineOffsetsAux.induct with
  | case1 x => simp [ropeLineOffsetsAux]
  | case2 rest i ih =>
    intro a ha
    simp only [ropeLineOffsetsAux, List.mem_cons] at ha
    simp only [List.length_cons]
    rcases ha with rfl | ha
    · omega
    · have := ih a ha
      omega
  | case3 rest i hne ih =>
    intro a ha
    rw [ropeLineOffsetsAux.eq_3 i rest hne] at ha
    rw [List.mem_cons] at ha
    simp only [List.length_cons]
    rcases ha with rfl | ha
    · omega
    · have := ih a ha
      omega
  | case4 rest i ih =>
    intro a ha
    simp only [ropeLineOffsetsAux, List.mem_cons] at ha
    simp only [List.length_cons]
    rcases ha with rfl | ha
    · omega
    · have := ih a ha
      omega
  | case5 c rest i h1 h2 h3 hb ih =>
    intro a ha
    rw [ropeLineOffsetsAux.eq_5 i c rest h1 h2 h3, if_pos hb,
      List.mem_cons] at ha
    simp only [List.length_cons]
    rcases ha with rfl | ha
    · omega
    · have := ih a ha
      omega
  | case6 c rest i h1 h2 h3 hb ih =>
    intro a ha
    rw [ropeLineOffsetsAux.eq_5 i c rest h1 h2 h3, if_neg hb] at ha
    have := ih a ha
    simp only [List.length_cons]
    omega

/-- Line starts never point past the end of the rope. -/
theorem ropeLineOffsets_mem_le (rope : List Char) :
    ∀ a ∈ ropeLineOffsets rope, a ≤ rope.length := by
  intro a ha
  rw [ropeLineOffsets, List.mem_cons] at ha
  rcases ha with rfl | ha
  · omega
  · simpa using ropeLineOffsetsAux_mem_le rope 0 a ha

/-- An in-bounds line index yields a line start within the rope. -/
theorem ropeLineToChar_le (rope : List Char) (line : Nat)
    (h : line < ropeLenLines rope) : ropeLineToChar rope line ≤ rope.length := by
  rw [ropeLineToChar, List.getD_eq_getElem _ _ h]
  exact ropeLineOffsets_mem_le rope _ (List.getElem_mem h)

/-- An in-bounds position resolves within the rope. -/
theorem posInBounds_le (rope : List Char) (p : Position)
    (h : posInBounds rope p) :
    ropeLineToChar rope p.line + p.character ≤ rope.length := by
  obtain ⟨h1, h2⟩ := h
  by_cases hn : p.line + 1 < ropeLenLines rope
  · rw [if_pos hn] at h2
    have := ropeLineToChar_le rope (p.line + 1) hn
    omega
  · rw [if_neg hn] at h2
    simpa [ropeLenChars] using h2

/-- For an in-bounds position `offset_at` is exactly line start plus column:
neither the `min` nor the `max` clamp fires. -/
theorem offset_at_inBounds (d : FullTextDocument) (p : Position)
    (h : posInBounds d.rope p) :
    d.offset_at p = ropeLineToChar d.rope p.line + p.character := by
  obtain ⟨h1, h2⟩ := h
  simp only [FullTextDocument.offset_at, FullTextDocument.line_count]
  rw [if_neg (by omega)]
  by_cases hn : p.line + 1 < ropeLenLines d.rope
  · rw [if_pos hn] at h2 ⊢
    omega
  · rw [if_neg hn] at h2 ⊢
    omega

theorem utf8Len_append (a b : List Char) :
    utf8Len (a ++ b) = utf8Len a + utf8Len b := by
  simp [utf8Len]

/-- Reading the byte offset of `s + |text|` characters out of the spliced
rope lands exactly at the old byte offset of `s` plus the byte length of the
inserted text. -/
theorem ropeCharToByte_splice (rope text : List Char) (s e : Nat)
    (hs : s ≤ rope.length) :
    ropeCharToByte (ropeSplice rope s e text) (s + text.length) =
      ropeCharToByte rope s + utf8Len text := by
  unfold ropeCharToByte ropeSplice
  have hassoc : rope.take s ++ text ++ rope.drop e =
      (rope.take s ++ text) ++ rope.drop e := by
    rw [List.append_assoc]
  rw [hassoc]
  have hlen : s + text.length = (rope.take s ++ text).length := by
    simp [List.length_append, List.length_take, hs]
  rw [hlen, List.take_left, utf8Len_append]

/-- C2 — counterexample: an Incremental event (range present) whose
range-length field is absent also gets `none` from `get_tree_edits`, so
`none` is not returned exactly for Full events. -/
theorem C2_counterexample :
    let c : TextDocumentContentChangeEvent :=
      ⟨some ⟨⟨0, 0⟩, ⟨0, 1⟩⟩, none, [ 'z' ]⟩
    FullTextDocument.is_incremental c = true ∧
    (get_tree_edits c exDoc1Char 2).1 = none := by
  decide

/-- C2 (amended) — `get_tree_edits` returns `none` exactly when the event
lacks a range OR lacks a range-length; for an event carrying both, over a
well-formed in-bounds range, it returns an edit whose new-end byte offset is
the start byte offset plus the byte length of the replacement text, computed
on the post-change buffer. -/
theorem C2_new_end_byte_eq_start_plus_text
    (c : TextDocumentContentChangeEvent) (d : FullTextDocument) (v : Int)
    (r : Range)
    (hr : c.range = some r) (hl : c.range_length.isSome = true)
    (hwf : r.start.line < r.endPos.line ∨
      (r.start.line = r.endPos.line ∧ r.start.character ≤ r.endPos.character))
    (hs : posInBounds d.rope r.start) (he : posInBounds d.rope r.endPos) :
    ∃ edit : InputEdit,
      (get_tree_edits c d v).1 = some edit ∧
      edit.new_end_byte = edit.start_byte + utf8Len c.text := by
  have hwfr : get_wellformed_range r = r := by
    unfold get_wellformed_range
    rw [if_neg (by omega)]
  have hso : d.offset_at r.start =
      ropeLineToChar d.rope r.start.line + r.start.character :=
    offset_at_inBounds d r.start hs
  have heo : d.offset_at r.endPos =
      ropeLineToChar d.rope r.endPos.line + r.endPos.character :=
    offset_at_inBounds d r.endPos he
  have hinc : FullTextDocument.is_incremental c = true := by
    simp [FullTextDocument.is_incremental, hr]
  have hupd : (d.update [c] v).rope =
      ropeSplice d.rope (ropeLineToChar d.rope r.start.line + r.start.character)
        (ropeLineToChar d.rope r.endPos.line + r.endPos.character) c.text := by
    simp [FullTextDocument.update, FullTextDocument.update_one, hinc, hr,
      hwfr, hso, heo]
  have hnone1 : c.range.isNone = false := by rw [hr]; rfl
  have hnone2 : c.range_length.isNone = false := by
    cases hcl : c.range_length with
    | none => rw [hcl] at hl; simp at hl
    | some n => rfl
  have hsle : ropeLineToChar d.rope r.start.line + r.start.character ≤
      d.rope.length := posInBounds_le d.rope r.start hs
  obtain ⟨n, hn⟩ := Option.isSome_iff_exists.mp hl
  obtain ⟨cr, crl, ct⟩ := c
  have hcr : cr = some r := hr
  have hcrl : crl = some n := hn
  subst hcr hcrl
  refine ⟨_, rfl, ?_⟩
  show ropeCharToByte
      ((FullTextDocument.update d [⟨some r, some n, ct⟩] v).rope)
      ((ropeLineToChar d.rope r.start.line + r.start.character) + ct.length) =
    ropeCharToByte d.rope
      (ropeLineToChar d.rope r.start.line + r.start.character) + utf8Len ct
  rw [hupd]
  exact ropeCharToByte_splice d.rope ct _ _ hsle

/-- Witness for the amended C2: replacing one character of `"ab\ncd"`. -/
theorem C2_witness :
    exIncEvent.range = some ⟨⟨0, 1⟩, ⟨0, 2⟩⟩ ∧
    exIncEvent.range_length.isSome = true ∧
    posInBounds exDoc2Lines.rope ⟨0, 1⟩ ∧
    posInBounds exDoc2Lines.rope ⟨0, 2⟩ ∧
    ∃ edit : InputEdit,
      (get_tree_edits exIncEvent exDoc2Lines 2).1 = some edit ∧
      edit.new_end_byte = edit.start_byte + utf8Len exIncEvent.text := by
  refine ⟨rfl, rfl, ?_, ?_, ?_⟩
  · exact ⟨by decide, by decide⟩
  · exact ⟨by decide, by decide⟩
  · exact C2_new_end_byte_eq_start_plus_text exIncEvent exDoc2Lines 2
      ⟨⟨0, 1⟩, ⟨0, 2⟩⟩ rfl rfl (Or.inr ⟨rfl, by decide⟩)
      ⟨by decide, by decide⟩ ⟨by decide, by decide⟩

/-- The `get_pos_type` child loop returns the caller-supplied category
exactly when some row-containing childless same-line child contains the
cursor column, and `NotFind` otherwise. -/
theorem get_pos_type_loop_eq (p : Point) (t : PositionType) (cs : List Node) :
    get_pos_type_loop p t cs =
      if hitsSameLineLeaf p cs then t else PositionType.NotFind := by
  induction cs with
  | nil => simp [get_pos_type_loop, hitsSameLineLeaf]
  | cons child rest ih =>
    by_cases h1 : p.row ≤ child.end_position.row ∧
        child.start_position.row ≤ p.row
    · by_cases h2 : child.child_count ≠ 0
      · have hloop : get_pos_type_loop p t (child :: rest) =
            get_pos_type_loop p t rest := by
          simp only [get_pos_type_loop]
          rw [if_pos h1, if_pos h2]
        have hiff : hitsSameLineLeaf p (child :: rest) ↔
            hitsSameLineLeaf p rest := by
          simp only [hitsSameLineLeaf, List.mem_cons]
          constructor
          · rintro ⟨c, (rfl | hc), hprops⟩
            · exact absurd hprops.2.1 h2
            · exact ⟨c, hc, hprops⟩
          · rintro ⟨c, hc, hprops⟩
            exact ⟨c, Or.inr hc, hprops⟩
        rw [hloop, ih, if_congr hiff rfl rfl]
      · push_neg at h2
        by_cases h3 : child.start_position.row = child.end_position.row ∧
            p.column ≤ child.end_position.column ∧
            child.start_position.column ≤ p.column
        · have hloop : get_pos_type_loop p t (child :: rest) = t := by
            simp only [get_pos_type_loop]
            rw [if_pos h1, if_neg (by omega : ¬ child.child_count ≠ 0),
              if_pos h3]
          have hhits : hitsSameLineLeaf p (child :: rest) :=
            ⟨child, List.mem_cons_self child rest, h1, h2, h3⟩
          rw [hloop, if_pos hhits]
        · have hloop : get_pos_type_loop p t (child :: rest) =
              get_pos_type_loop p t rest := by
            simp only [get_pos_type_loop]
            rw [if_pos h1, if_neg (by omega : ¬ child.child_count ≠ 0),
              if_neg h3]
          have hiff : hitsSameLineLeaf p (child :: rest) ↔
              hitsSameLineLeaf p rest := by
            simp only [hitsSameLineLeaf, List.mem_cons]
            constructor
            · rintro ⟨c, (rfl | hc), hprops⟩
              · exact absurd hprops.2.2 h3
              · exact ⟨c, hc, hprops⟩
            · rintro ⟨c, hc, hprops⟩
              exact ⟨c, Or.inr hc, hprops⟩
          rw [hloop, ih, if_congr hiff rfl rfl]
    · have hloop : get_pos_type_loop p t (child :: rest) =
          get_pos_type_loop p t rest := by
        simp only [get_pos_type_loop]
        rw [if_neg h1]
      have hiff : hitsSameLineLeaf p (child :: rest) ↔
          hitsSameLineLeaf p rest := by
        simp only [hitsSameLineLeaf, List.mem_cons]
        constructor
        · rintro ⟨c, (rfl | hc), hprops⟩
          · exact absurd hprops.1 h1
          · exact ⟨c, hc, hprops⟩
        · rintro ⟨c, hc, hprops⟩
          exact ⟨c, Or.inr hc, hprops⟩
      rw [hloop, ih, if_congr hiff rfl rfl]

/-- C8 (amended) — `get_pos_type` returns the caller-supplied default
category exactly when the cursor lies inside a same-line childless direct
child of the root, and `NotFind` otherwise: the container/comment
classification of children that have children is bound to the unused
`_match_type` and discarded, so `Variable`/`Comment` are never produced
from node kinds. -/
theorem C8_get_pos_type_characterization (loc : Position) (root : Node)
    (src : String) (t : PositionType) :
    get_pos_type loc root src t =
      if hitsSameLineLeaf (position_to_point loc) root.children then t
      else PositionType.NotFind :=
  get_pos_type_loop_eq (position_to_point loc) t root.children

/-- C8 — counterexample: the cursor sits inside an `import_statement`
container child (one of the kinds the claim says yields `Variable`), yet
`get_pos_type` returns `NotFind`: the loop discards the classification of
children that have children and falls through. -/
theorem C8_counterexample :
    (C8cexTree.child 0).kind = "import_statement" ∧
    (C8cexTree.child 0).child_count ≠ 0 ∧
    (C8cexTree.child 0).start_position.row ≤ 0 ∧
    0 ≤ (C8cexTree.child 0).end_position.row ∧
    get_pos_type ⟨0, 3⟩ C8cexTree "import foo" PositionType.NotFind =
      PositionType.NotFind ∧
    get_pos_type ⟨0, 3⟩ C8cexTree "import foo" PositionType.NotFind ≠
      PositionType.Variable := by
  decide

/-- C6 (amended) — the grammar-error scan of `check_tree_error` inspects
only the node it is handed (the root, in `obtain_full_diagnostics`): it
emits the single root-spanning `"Grammar Error"` diagnostic (no severity
override) exactly when the root itself is a parse-error node, never
descending into the tree; full diagnostics therefore publish the external
compile entries followed by that root-only grammar portion. -/
theorem C6_grammar_scan_root_only (source : String) (n : Node)
    (ce : Option ErrorInfo) :
    ((check_tree_error source n).map ErrorInfo.entries).getD [] =
      (if n.is_error = true then (specGrammarErrorDiagnostics n).take 1
       else []) ∧
    obtain_full_diagnostics ce source n =
      (ce.map ErrorInfo.entries).getD [] ++
        (if n.is_error = true then (specGrammarErrorDiagnostics n).take 1
         else []) := by
  have h1 : ((check_tree_error source n).map ErrorInfo.entries).getD [] =
      (if n.is_error = true then (specGrammarErrorDiagnostics n).take 1
       else []) := by
    cases n with
    | node k s e cs =>
      by_cases h : (Node.node k s e cs).is_error = true
      · have hk : k = "ERROR" := by
          simpa [Node.is_error, Node.kind] using h
        rw [if_pos h]
        unfold check_tree_error
        rw [if_pos h]
        subst hk
        simp [specGrammarErrorDiagnostics, Node.start_position,
          Node.end_position]
      · rw [if_neg h]
        unfold check_tree_error
        rw [if_neg h]
        rfl
  exact ⟨h1, by rw [obtain_full_diagnostics, h1]⟩

/-- C6 — counterexample: a tree with exactly one parse-error node (a child
of the root).  The claimed scan would yield one diagnostic; the code checks
only the root, finds it not an error node, and yields none, so full
diagnostics publish no grammar entry at all. -/
theorem C6_counterexample :
    (specGrammarErrorDiagnostics C6cexTree).length = 1 ∧
    check_tree_error "src" C6cexTree = none ∧
    obtain_full_diagnostics none "src" C6cexTree = [] := by
  decide


/-- Everything an include-file scan returns is marked as coming from an
included file. -/
theorem scanner_all_viaInclude (env : FileEnv) (fuel : Nat) (path : String)
    (postype : PositionType) (l : List CompletionItem)
    (h : scanner_include_complete env fuel path postype = some (some l)) :
    ∀ item ∈ l, item.viaInclude = true := by
  cases fuel with
  | zero => simp [scanner_include_complete] at h
  | succ n =>
    simp only [scanner_include_complete] at h
    cases he : env path with
    | none => simp only [he] at h; simp at h
    | some pr =>
      obtain ⟨tree, content⟩ := pr
      simp only [he] at h
      cases hg : getsubcomplete env n tree content path postype none with
      | none => simp only [hg] at h; simp at h
      | some result =>
        simp only [hg] at h
        cases result with
        | none => simp at h
        | some l0 =>
          simp only [Option.map, Option.some.injEq] at h
          intro item hmem
          rw [← h] at hmem
          obtain ⟨x, _, rfl⟩ := List.mem_map.mp hmem
          rfl

/-- Joint loop invariant for the cursor-bounded collector: with a cursor
location, every item a terminating run returns either came through the
include scan or is defined at a row no greater than the cursor line. -/
theorem collect_bound_aux (env : FileEnv) (fuel : Nat) :
    (∀ (input : Node) (source local_path : String) (postype : PositionType)
      (loc : Position) (l : List CompletionItem),
      getsubcomplete env fuel input source local_path postype (some loc) =
        some (some l) →
      ∀ item ∈ l, item.viaInclude = true ∨ item.defRow ≤ loc.line) ∧
    (∀ (children : List Node) (source local_path : String)
      (postype : PositionType) (loc : Position) (l : List CompletionItem),
      gsChildren env fuel children source local_path postype (some loc) =
        some l →
      ∀ item ∈ l, item.viaInclude = true ∨ item.defRow ≤ loc.line) ∧
    (∀ (child : Node) (source local_path : String) (postype : PositionType)
      (loc : Position) (l : List CompletionItem),
      gsChildItems env fuel child source local_path postype (some loc) =
        some l →
      ¬ cursorGate (some loc) child.start_position.row = true →
      ∀ item ∈ l, item.viaInclude = true ∨ item.defRow ≤ loc.line) := by
  induction fuel with
  | zero =>
    refine ⟨?_, ?_, ?_⟩ <;> intros <;> simp_all [getsubcomplete, gsChildren,
      gsChildItems]
  | succ n ih =>
    obtain ⟨ihG, ihC, ihI⟩ := ih
    refine ⟨?_, ?_, ?_⟩
    · intro input source local_path postype loc l h item hmem
      simp only [getsubcomplete] at h
      by_cases hg : cursorGate (some loc) input.start_position.row = true
      · rw [if_pos hg] at h
        simp at h
      · rw [if_neg hg] at h
        cases hc : gsChildren env n input.children source local_path postype
            (some loc) with
        | none => rw [hc] at h; simp at h
        | some complete =>
          rw [hc] at h
          by_cases he : complete.isEmpty
          · simp [he] at h
          · simp only [he, if_false, Bool.false_eq_true, if_neg,
              Option.some.injEq] at h
            cases h
            exact ihC _ _ _ _ _ _ hc item hmem
    · intro children source local_path postype loc l h item hmem
      cases children with
      | nil =>
        simp only [gsChildren, Option.some.injEq] at h
        subst h
        simp at hmem
      | cons child rest =>
        simp only [gsChildren] at h
        by_cases hg : cursorGate (some loc) child.start_position.row = true
        · rw [if_pos hg] at h
          simp only [Option.some.injEq] at h
          subst h
          simp at hmem
        · rw [if_neg hg] at h
          cases hi : gsChildItems env n child source local_path postype
              (some loc) with
          | none => rw [hi] at h; simp at h
          | some items =>
            rw [hi] at h
            cases ht : gsChildren env n rest source local_path postype
                (some loc) with
            | none => rw [ht] at h; simp at h
            | some tailItems =>
              rw [ht] at h
              simp only [Option.some.injEq] at h
              subst h
              rcases List.mem_append.mp hmem with hm | hm
              · exact ihI child _ _ _ _ _ hi hg item hm
              · exact ihC rest _ _ _ _ _ ht item hm
    · intro child source local_path postype loc l h hg item hmem
      simp only [gsChildItems] at h
      have hrow : child.start_position.row ≤ loc.line := by
        simp only [cursorGate, decide_eq_true_eq] at hg
        omega
      by_cases h1 : child.kind = "function_def"
      · rw [if_pos h1] at h
        simp only [Option.some.injEq] at h
        subst h
        simp only [List.mem_singleton] at hmem
        subst hmem
        exact Or.inr hrow
      · rw [if_neg h1] at h
        by_cases h2 : child.kind = "macro_def"
        · rw [if_pos h2] at h
          simp only [Option.some.injEq] at h
          subst h
          simp only [List.mem_singleton] at hmem
          subst hmem
          exact Or.inr hrow
        · rw [if_neg h2] at h
          by_cases h3 : child.kind = "if_condition" ∨
              child.kind = "foreach_loop"
          · rw [if_pos h3] at h
            cases hrec : getsubcomplete env n child source local_path postype
                (some loc) with
            | none => rw [hrec] at h; simp at h
            | some r =>
              rw [hrec] at h
              cases r with
              | none =>
                simp only [Option.some.injEq] at h
                subst h
                simp at hmem
              | some msgs =>
                simp only [Option.some.injEq] at h
                subst h
                exact ihG _ _ _ _ _ _ hrec item hmem
          · rw [if_neg h3] at h
            by_cases h4 : child.kind = "normal_command"
            · rw [if_pos h4] at h
              split at h
              · split at h
                · split at h
                  · split at h
                    · cases hs : scanner_include_complete env n
                          (joinPath (parentOf local_path)
                            (sliceLine (strLines source)
                              (child.child 2).start_position.row
                              (child.child 2).start_position.column
                              (child.child 2).end_position.column).asString)
                          postype with
                      | none => rw [hs] at h; simp at h
                      | some r =>
                        rw [hs] at h
                        cases r with
                        | none =>
                          simp only [Option.some.injEq] at h
                          subst h
                          simp at hmem
                        | some comps =>
                          simp only [Option.some.injEq] at h
                          subst h
                          exact Or.inl
                            (scanner_all_viaInclude env n _ postype _ hs
                              item hmem)
                    · simp only [Option.some.injEq] at h
                      subst h
                      simp at hmem
                  · simp only [Option.some.injEq] at h
                    subst h
                    simp at hmem
                · simp only [Option.some.injEq] at h
                  subst h
                  simp at hmem
              · simp only [Option.some.injEq] at h
                subst h
                simp at hmem
            · rw [if_neg h4] at h
              simp only [Option.some.injEq] at h
              subst h
              simp at hmem

/-- C7 (amended) — every candidate a terminating `getsubcomplete` run with
a cursor location returns is either marked as coming through the
include-file secondary scan (which walks the included file whole, with no
cursor bound) or has a defining node starting at or before the cursor
line.  The original claim, with no include carve-out, is refuted by
`C7_counterexample`. -/
theorem C7_collect_cursor_bound (env : FileEnv) (fuel : Nat) (input : Node)
    (source local_path : String) (postype : PositionType) (loc : Position)
    (l : List CompletionItem)
    (h : getsubcomplete env fuel input source local_path postype (some loc) =
      some (some l)) :
    ∀ item ∈ l, item.viaInclude = true ∨ item.defRow ≤ loc.line :=
  (collect_bound_aux env fuel).1 input source local_path postype loc l h

/-- Witness for the amended C7 at the concrete include example. -/
theorem C7_witness :
    getsubcomplete C7env 20 C7treeA C7srcA "dir/a.cy" PositionType.NotFind
        (some ⟨0, 0⟩) =
      some (some [⟨"f()", "defined function\nfrom: b.cy", 5, true⟩]) ∧
    ∀ item ∈ [(⟨"f()", "defined function\nfrom: b.cy", 5, true⟩ :
        CompletionItem)],
      item.viaInclude = true ∨ item.defRow ≤ (0 : Nat) := by
  have hrun : getsubcomplete C7env 20 C7treeA C7srcA "dir/a.cy"
      PositionType.NotFind (some ⟨0, 0⟩) =
      some (some [⟨"f()", "defined function\nfrom: b.cy", 5, true⟩]) := by
    decide
  exact ⟨hrun, C7_collect_cursor_bound C7env 20 C7treeA C7srcA "dir/a.cy"
    PositionType.NotFind ⟨0, 0⟩ _ hrun⟩

/-- C7 — counterexample to the claim as stated: with the cursor on line 0,
the collector returns a candidate whose defining node starts on row 5 of
the included file — the include scan applies no cursor bound. -/
theorem C7_counterexample :
    getsubcomplete C7env 20 C7treeA C7srcA "dir/a.cy" PositionType.NotFind
        (some ⟨0, 0⟩) =
      some (some [⟨"f()", "defined function\nfrom: b.cy", 5, true⟩]) ∧
    (5 : Nat) > 0 := by
  exact ⟨by decide, by omega⟩



/-- One unfold of the collector on the self-including file (no cursor). -/
theorem C9_L1 (m : Nat) :
    getsubcomplete C9env (m + 4) C9treeA C9src "dir/a.cy"
      PositionType.NotFind none =
      match gsChildren C9env (m + 3) C9treeA.children C9src "dir/a.cy"
          PositionType.NotFind none with
      | none => none
      | some complete =>
        some (if complete.isEmpty then none else some complete) := rfl

/-- One unfold of the child loop on the single include command. -/
theorem C9_L2 (m : Nat) :
    gsChildren C9env (m + 3) C9treeA.children C9src "dir/a.cy"
      PositionType.NotFind none =
      match gsChildItems C9env (m + 2) (C9treeA.child 0) C9src "dir/a.cy"
          PositionType.NotFind none with
      | none => none
      | some items =>
        match gsChildren C9env (m + 2) [] C9src "dir/a.cy"
            PositionType.NotFind none with
        | none => none
        | some tailItems => some (items ++ tailItems) := rfl

/-- The include command resolves to the file itself and hands over to the
scanner. -/
theorem C9_L3 (m : Nat) :
    gsChildItems C9env (m + 2) (C9treeA.child 0) C9src "dir/a.cy"
      PositionType.NotFind none =
      match scanner_include_complete C9env (m + 1) "dir/a.cy"
          PositionType.NotFind with
      | none => none
      | some none => some []
      | some (some comps) => some comps := rfl

/-- The scanner re-enters the collector on the same file, with no visited
set and no cursor bound. -/
theorem C9_L4 (m : Nat) :
    scanner_include_complete C9env (m + 1) "dir/a.cy" PositionType.NotFind =
      match getsubcomplete C9env m C9treeA C9src "dir/a.cy"
          PositionType.NotFind none with
      | none => none
      | some result =>
        some (result.map (List.map markViaInclude)) := rfl

/-- On the self-including file the collector consumes any amount of fuel
without producing a result (cursorless runs, as entered from the include
scan). -/
theorem C9cycle_aux (m : Nat) :
    getsubcomplete C9env m C9treeA C9src "dir/a.cy" PositionType.NotFind
      none = none := by
  induction m using Nat.strong_induction_on with
  | _ m ih =>
    rcases m with _ | _ | _ | _ | k
    · rfl
    · rfl
    · rfl
    · rfl
    · rw [show k + 1 + 1 + 1 + 1 = k + 4 from rfl, C9_L1 k, C9_L2 k,
        C9_L3 k, C9_L4 k, ih k (by omega)]

/-- The same three unfolds for the top-level call that carries the cursor
location (rows are 0, so the cursor gate never breaks the cycle). -/
theorem C9_L1s (m : Nat) :
    getsubcomplete C9env (m + 4) C9treeA C9src "dir/a.cy"
      PositionType.NotFind (some ⟨0, 0⟩) =
      match gsChildren C9env (m + 3) C9treeA.children C9src "dir/a.cy"
          PositionType.NotFind (some ⟨0, 0⟩) with
      | none => none
      | some complete =>
        some (if complete.isEmpty then none else some complete) := rfl

theorem C9_L2s (m : Nat) :
    gsChildren C9env (m + 3) C9treeA.children C9src "dir/a.cy"
      PositionType.NotFind (some ⟨0, 0⟩) =
      match gsChildItems C9env (m + 2) (C9treeA.child 0) C9src "dir/a.cy"
          PositionType.NotFind (some ⟨0, 0⟩) with
      | none => none
      | some items =>
        match gsChildren C9env (m + 2) [] C9src "dir/a.cy"
            PositionType.NotFind (some ⟨0, 0⟩) with
        | none => none
        | some tailItems => some (items ++ tailItems) := rfl

theorem C9_L3s (m : Nat) :
    gsChildItems C9env (m + 2) (C9treeA.child 0) C9src "dir/a.cy"
      PositionType.NotFind (some ⟨0, 0⟩) =
      match scanner_include_complete C9env (m + 1) "dir/a.cy"
          PositionType.NotFind with
      | none => none
      | some none => some []
      | some (some comps) => some comps := rfl

/-- C9 — the code lacks the claimed visited-file set: on a file that
includes itself, the definition collector never terminates.  For every
recursion budget, both the cursor-carrying top-level run and the cursorless
run entered from the include scan exhaust the budget instead of returning
(`none` is the fuel-exhaustion outcome, so no finite recursion depth
completes). -/
theorem C9_include_cycle_diverges (fuel : Nat) :
    getsubcomplete C9env fuel C9treeA C9src "dir/a.cy" PositionType.NotFind
      (some ⟨0, 0⟩) = none ∧
    getsubcomplete C9env fuel C9treeA C9src "dir/a.cy" PositionType.NotFind
      none = none := by
  refine ⟨?_, C9cycle_aux fuel⟩
  rcases fuel with _ | _ | _ | _ | k
  · rfl
  · rfl
  · rfl
  · rfl
  · rw [show k + 1 + 1 + 1 + 1 = k + 4 from rfl, C9_L1s k, C9_L2s k,
      C9_L3s k, C9_L4 k, C9cycle_aux k]

/-- C5 — the code panics instead of returning an empty result: for every
uri absent from the document map (unopened, or opened then closed), the
hover handler and the completion handler (with a completion context, as
editors send) hit `.unwrap()` on the failed map lookup and panic. -/
theorem C5_unknown_uri_query_panics
    (docs : String → Option HandlerDocument) (parse : String → Node)
    (storage : String → Option LanguageDefinition) (env : FileEnv)
    (fuel : Nat) (lsp_client uri : String) (position : Position)
    (h : docs uri = none) :
    on_hover docs parse storage lsp_client uri position =
      Except.error panicMsg ∧
    on_completion docs parse env storage fuel true uri position =
      some (Except.error panicMsg) := by
  unfold on_hover on_completion
  rw [h]
  exact ⟨rfl, rfl⟩

/-- Witness for C5 at a concrete empty document map. -/
theorem C5_witness :
    (fun _ => (none : Option HandlerDocument)) "file:///closed.cy" =
      (none : Option HandlerDocument) ∧
    on_hover (fun _ => none)
      (fun _ => Node.node "source_file" ⟨0, 0⟩ ⟨0, 0⟩ []) (fun _ => none)
      "vscode" "file:///closed.cy" ⟨0, 0⟩ = Except.error panicMsg ∧
    on_completion (fun _ => none)
      (fun _ => Node.node "source_file" ⟨0, 0⟩ ⟨0, 0⟩ []) (fun _ => none)
      (fun _ => none) 10 true "file:///closed.cy" ⟨0, 0⟩ =
      some (Except.error panicMsg) := by
  refine ⟨rfl, ?_, ?_⟩
  · exact (C5_unknown_uri_query_panics (fun _ => none)
      (fun _ => Node.node "source_file" ⟨0, 0⟩ ⟨0, 0⟩ []) (fun _ => none)
      (fun _ => none) 10 "vscode" "file:///closed.cy" ⟨0, 0⟩ rfl).1
  · exact (C5_unknown_uri_query_panics (fun _ => none)
      (fun _ => Node.node "source_file" ⟨0, 0⟩ ⟨0, 0⟩ []) (fun _ => none)
      (fun _ => none) 10 "vscode" "file:///closed.cy" ⟨0, 0⟩ rfl).2
